import Mathlib

/-!
# Jule front end: struct declarations and the per-file parse driver

A shallow embedding of `src/sema/struct.go` (`Struct.To_str`, `Struct.Find_method`,
`StructIns`) and of `parser/parsefile.go` (`ParseFile`), with the properties the
specification states about them.

Modelling conventions

* A Go `string` is a sequence of bytes: `GoString := List UInt8`. A string literal is
  the UTF-8 encoding of its text (`str`). `+` on strings is `++`, `len` is `List.length`.
* A Go slice expression `s[:hi]` panics when `hi` is out of range; `slice_to` returns
  `none` in that case and `To_str` propagates it.
* A slice of pointers to declarations (`[]*Fn`, `[]*ast.Generic`, ...) is the list of the
  records pointed to, in order; the declarations come from the parser and are never nil.
  A pointer result that may be nil (`*Fn` of `Find_method`) is an `Option`.
* Types that the two files import but do not declare are parameters (`Decls`,
  `Collab`); only the fields the code reads (`Ident`) are fixed.
-/

/-- Go `string`: an immutable sequence of bytes. -/
abbrev GoString := List UInt8

/-- Go string literal: the UTF-8 bytes of the text. -/
def str (s : String) : GoString := s.data.flatMap String.utf8EncodeChar

/-- Go slice expression `s[:hi]` on a string; `none` is the run-time panic
"slice bounds out of range" (`hi < 0` or `hi > len(s)`). -/
def slice_to (s : GoString) (hi : Int) : Option GoString :=
  if 0 ≤ hi ∧ hi ≤ (s.length : Int) then some (s.take hi.toNat) else none

namespace sema

/-- Types used by `struct.go` whose declarations live in other files and packages
(`lex.Token`, `TypeSymbol`, `TypeKind`, `ast.Directive`, `Trait`), and the parts of `Fn`
and `ast.Generic` other than the `Ident` field the code reads. -/
structure Decls where
  Token : Type
  TypeSymbol : Type
  TypeKind : Type
  Directive : Type
  Trait : Type
  FnRest : Type
  GenericRest : Type

/-- Method declaration `Fn`: `struct.go` reads only `Ident`. -/
structure Fn (D : Decls) where
  Ident : GoString
  rest : D.FnRest

/-- Generic parameter `ast.Generic`: `struct.go` reads only `Ident`. -/
structure Generic (D : Decls) where
  Ident : GoString
  rest : D.GenericRest

/-- Field. -/
structure Field (D : Decls) where
  Token : D.Token
  Public : Bool
  Mutable : Bool
  Ident : GoString
  Kind : D.TypeSymbol

/-- Structure. -/
structure Struct (D : Decls) where
  Token : D.Token
  Ident : GoString
  Fields : List (Field D)
  Methods : List (Fn D)
  Public : Bool
  Cpp_linked : Bool
  Directives : List D.Directive
  Doc : GoString
  Generics : List (Generic D)
  Implements : List D.Trait

/-- Field structure. -/
structure FieldIns (D : Decls) where
  Decl : Field D
  Kind : D.TypeKind

/-- Structure instance. -/
structure StructIns (D : Decls) where
  Decl : Struct D
  Fields : List (FieldIns D)

/-- The loop `for _, g := range s.Generics { kind += g.Ident; kind += "," }`. -/
def To_str_range {D : Decls} (kind : GoString) : List (Generic D) → GoString
  | [] => kind
  | g :: gs =>
    let kind := kind ++ g.Ident
    let kind := kind ++ str ","
    To_str_range kind gs

/-- Returns Struct's type kind as string (`Struct.To_str`); `none` is a panic of the
slice expression. -/
def To_str {D : Decls} (s : Struct D) : Option GoString :=
  let kind : GoString := str ""
  let kind := kind ++ s.Ident
  if s.Generics.length > 0 then
    let kind := kind ++ str "["
    let kind := To_str_range kind s.Generics
    (slice_to kind ((kind.length : Int) - 1)).bind fun kind =>
    let kind := kind ++ str "]"
    some kind
  else
    some kind

/-- The loop `for _, f := range s.Methods { if f.Ident == ident { return f } }`;
`none` when the loop falls through. -/
def Find_method_range {D : Decls} (ident : GoString) : List (Fn D) → Option (Fn D)
  | [] => none
  | f :: fs => if f.Ident = ident then some f else Find_method_range ident fs

/-- Returns method by identifier; `none` (nil) if no method has this identifier
(`Struct.Find_method`). -/
def Find_method {D : Decls} (s : Struct D) (ident : GoString) : Option (Fn D) :=
  Find_method_range ident s.Methods

end sema

namespace parser

/-- Types used by `parsefile.go` that are declared elsewhere: `io.FILE`, the lexer's
token type and `Parser`. -/
structure Decls where
  FILE : Type
  Token : Type
  Parser : Type

/-- The record `ParseFileInfo`. `Errors` is a slice that may be nil (`none`); `Routines` is the
counter of the wait group; `Parser` is a pointer that may be nil (`none`) and otherwise
carries the state of the parser it points to. -/
structure ParseFileInfo (X : Decls) where
  X_CXX : GoString
  Errors : Option (List GoString)
  File : X.FILE
  Routines : Int
  Parser : Option X.Parser

/-- The collaborators `ParseFile` calls, declared outside `parsefile.go`.
`Tokenize f` is `lex.New(f).Tokenize()` together with the value of `lexer.Errors`
afterwards; `NewParser` builds a parser from the tokens and the info it is given;
`Parse` is `info.Parser.Parse()`, which may update the info the parser points back to and
the parser itself; `Cxx` is `info.Parser.Cxx()`. -/
structure Collab (X : Decls) where
  Tokenize : X.FILE → List X.Token × Option (List GoString)
  NewParser : List X.Token → ParseFileInfo X → X.Parser
  Parse : ParseFileInfo X → ParseFileInfo X
  Cxx : ParseFileInfo X → GoString

/-- The call `info.Routines.Done()`: the wait group counter goes down by one. -/
def Done {X : Decls} (info : ParseFileInfo X) : ParseFileInfo X :=
  { info with Routines := info.Routines - 1 }

/-- ParseFile parses file content. The result is the info after the call, the deferred
`Done` included. -/
def ParseFile {X : Decls} (c : Collab X) (info : ParseFileInfo X) : ParseFileInfo X :=
  let info := { info with X_CXX := str "" }
  let lexed := c.Tokenize info.File
  let tokens := lexed.1
  match lexed.2 with
  | some errors =>
    let info := { info with Errors := some errors }
    Done info
  | none =>
    let info := { info with Parser := some (c.NewParser tokens info) }
    let info := c.Parse info
    let info := { info with X_CXX := info.X_CXX ++ c.Cxx info }
    Done info

end parser

/-! ## Projections, the spec's canonical name and the instantiation engine -/

namespace sema

/-- The ordered identifiers of the generics of a struct. -/
def generic_idents {D : Decls} (s : Struct D) : List GoString :=
  s.Generics.map fun g => g.Ident

/-- The ordered identifiers of the methods of a struct. -/
def method_idents {D : Decls} (s : Struct D) : List GoString :=
  s.Methods.map fun f => f.Ident

/-- The spec's wording of the canonical key (§4.1 `canonical_name`), to be compared with
`To_str`: the struct identifier, followed, only if generics are present, by a
comma-joined, bracket-delimited list of the generic argument names in declared order. -/
def canonical_name {D : Decls} (s : Struct D) (generic_arg_idents : List GoString) :
    GoString :=
  if generic_arg_idents.isEmpty then s.Ident
  else s.Ident ++ str "[" ++ List.intercalate (str ",") generic_arg_idents ++ str "]"

/-- An identifier that holds none of the characters `[`, `]` and `,` which `To_str`
uses as delimiters. -/
def delimiter_free (ident : GoString) : Prop :=
  (91 : UInt8) ∉ ident ∧ (93 : UInt8) ∉ ident ∧ (44 : UInt8) ∉ ident

instance (ident : GoString) : Decidable (delimiter_free ident) := by
  unfold delimiter_free
  infer_instance

/-- Modelled from the spec: the resolver of §4.2, which is not in the sources.
`kind_str` is the canonical textual form of a resolved type; `resolve` resolves a declared
type under a substitution context (generic parameter identifier, argument kind). -/
structure Resolver (D : Decls) where
  kind_str : D.TypeKind → GoString
  resolve : D.TypeSymbol → List (GoString × D.TypeKind) → D.TypeKind

/-- Modelled from the spec: the state of the generic instantiation engine of §4.3, which
is not in the sources. `store` holds the live instances, a reference to an instance being
its position in `store`; `cache` maps a canonical key to the reference of its instance
and lives for the whole compilation. -/
structure Engine (D : Decls) where
  store : List (StructIns D)
  cache : List (GoString × Nat)

/-- Modelled from the spec: the error of step 1 of `instantiate` in §4.3
("expected N type arguments, found M"). -/
inductive InstantiateError where
  | arity (expected found : Nat)
  deriving DecidableEq, Repr

/-- Modelled from the spec: lookup of a key in the instantiation cache of §4.3. -/
def cache_lookup (key : GoString) : List (GoString × Nat) → Option Nat
  | [] => none
  | (k, r) :: rest => if k = key then some r else cache_lookup key rest

/-- Modelled from the spec: `instantiate(struct_decl, ordered_type_args)` of §4.3, which
is not in the sources. Step 1 validates the arity; step 2 computes the canonical key from
the canonical textual forms of the arguments; step 3 returns the cached instance on a hit;
step 4 builds the instance (fields resolved in declaration order under the substitution
context, which is empty for a native-linked struct), inserts it under the key and
returns it. The result is the engine afterwards and the reference returned. -/
def instantiate {D : Decls} (R : Resolver D) (e : Engine D) (struct_decl : Struct D)
    (ordered_type_args : List D.TypeKind) : Engine D × Except InstantiateError Nat :=
  if ordered_type_args.length ≠ struct_decl.Generics.length then
    (e, Except.error (InstantiateError.arity struct_decl.Generics.length
      ordered_type_args.length))
  else
    let key := canonical_name struct_decl (ordered_type_args.map R.kind_str)
    match cache_lookup key e.cache with
    | some ref => (e, Except.ok ref)
    | none =>
      let ctx : List (GoString × D.TypeKind) :=
        if struct_decl.Cpp_linked then [] else (generic_idents struct_decl).zip ordered_type_args
      let fields : List (FieldIns D) :=
        struct_decl.Fields.map fun f => { Decl := f, Kind := R.resolve f.Kind ctx }
      let ins : StructIns D := { Decl := struct_decl, Fields := fields }
      let ref := e.store.length
      ({ store := e.store ++ [ins], cache := (key, ref) :: e.cache }, Except.ok ref)

/-- Modelled from the spec: a sequence of `instantiate` requests served one after the
other by the engine; only the engine state is kept. -/
def instantiate_all {D : Decls} (R : Resolver D) (e : Engine D) :
    List (Struct D × List D.TypeKind) → Engine D
  | [] => e
  | (s, args) :: rest => instantiate_all R (instantiate R e s args).1 rest

end sema

/-! ## Concrete declarations used as instances -/

namespace sema

/-- Instance of the imported types: a type symbol and a resolved kind are names, a method
carries a number (standing for its signature and body) so that two methods with one
identifier can be told apart, and the other payloads are trivial. -/
def D0 : Decls := ⟨Unit, GoString, GoString, Unit, Unit, Nat, Unit⟩

/-- A struct declaration over `D0` with the given identifier, generics and methods. -/
def mkStruct (ident : String) (generics : List String) (methods : List (String × Nat)) :
    Struct D0 :=
  { Token := (), Ident := str ident, Fields := [],
    Methods := methods.map fun m => ⟨str m.1, m.2⟩,
    Public := false, Cpp_linked := false, Directives := [], Doc := str "",
    Generics := generics.map fun g => ⟨str g, ()⟩, Implements := [] }

/-- A resolver over `D0`: a kind is its own text, and a symbol resolves to the kind bound
to it in the context, or to itself. -/
def R0 : Resolver D0 :=
  { kind_str := fun (k : GoString) => k,
    resolve := fun (sym : GoString) ctx =>
      match ctx.find? (fun p => p.1 = sym) with
      | some p => p.2
      | none => sym }

/-- The engine before any instantiation. -/
def Engine.empty (D : Decls) : Engine D := { store := [], cache := [] }

end sema

namespace parser

/-- Instance of the imported types: a file is its content, a token is a number and a
parser is the list of tokens it holds. -/
def X0 : Decls := ⟨GoString, Nat, List Nat⟩

/-- Collaborators over `X0` whose lexer reports the one error `msg` on every file. -/
def failing (msg : String) : Collab X0 :=
  { Tokenize := fun _ => ([], some [str msg]),
    NewParser := fun tokens _ => tokens,
    Parse := fun info => { info with Errors := some [], X_CXX := str "parsed" },
    Cxx := fun _ => str "int main() {}" }

/-- An info over `X0` left over from an earlier run. -/
def info0 : ParseFileInfo X0 :=
  { X_CXX := str "old", Errors := none, File := str "fn main(", Routines := 3,
    Parser := some [7] }

end parser

/-! ## Lemmas on byte strings and on the two loops -/

/-- The empty literal has no bytes. -/
theorem str_empty : str "" = [] := rfl

/-- The literal `","` is the byte 44. -/
theorem str_comma : str "," = [44] := rfl

/-- The literal `"["` is the byte 91. -/
theorem str_lbrack : str "[" = [91] := rfl

/-- The literal `"]"` is the byte 93. -/
theorem str_rbrack : str "]" = [93] := rfl

/-- Slicing off the last byte of a string that ends in `c` is in range and gives the
string before `c`. -/

theorem slice_to_length_pred (k : GoString) (c : UInt8) :
    slice_to (k ++ [c]) (((k ++ [c]).length : Int) - 1) = some k := by
  have h1 : (((k ++ [c]).length : Int) - 1) = (k.length : Int) := by
    simp
  rw [h1]
  unfold slice_to
  have h2 : (0 : Int) ≤ (k.length : Int) ∧ (k.length : Int) ≤ ((k ++ [c]).length : Int) := by
    constructor
    · exact Int.ofNat_nonneg _
    · simp
  rw [if_pos h2]
  simp

/-- Joining with a separator, written with a trailing separator after every item. -/
theorem flatMap_sep_eq_intercalate {α : Type} (sep : List α) (x : List α) (xs : List (List α)) :
    (x :: xs).flatMap (fun i => i ++ sep) = List.intercalate sep (x :: xs) ++ sep := by
  induction xs generalizing x with
  | nil => simp [List.intercalate]
  | cons y ys ih =>
    have := ih y
    simp only [List.flatMap_cons] at this ⊢
    rw [this]
    simp [List.intercalate, List.intersperse]

theorem intercalate_cons_cons {α : Type} (sep x y : List α) (ys : List (List α)) :
    List.intercalate sep (x :: y :: ys) = x ++ sep ++ List.intercalate sep (y :: ys) := by
  simp [List.intercalate, List.intersperse]

theorem intercalate_singleton {α : Type} (sep x : List α) :
    List.intercalate sep [x] = x := by
  simp [List.intercalate]

/-- A list is split in one way only at the first occurrence of an element. -/
theorem append_cons_inj_of_not_mem {α : Type} (c : α) :
    ∀ (a b r t : List α), c ∉ a → c ∉ b → a ++ c :: r = b ++ c :: t → a = b ∧ r = t
  | [], [], r, t, _, _, h => by simpa using h
  | [], y :: b, r, t, _, hb, h => by
    simp only [List.nil_append, List.cons_append, List.cons.injEq] at h
    exact absurd (h.1 ▸ List.mem_cons_self _ _) hb
  | x :: a, [], r, t, ha, _, h => by
    simp only [List.nil_append, List.cons_append, List.cons.injEq] at h
    exact absurd (h.1 ▸ List.mem_cons_self _ _) ha
  | x :: a, y :: b, r, t, ha, hb, h => by
    simp only [List.cons_append, List.cons.injEq] at h
    have ha2 : c ∉ a := fun hm => ha (List.mem_cons_of_mem _ hm)
    have hb2 : c ∉ b := fun hm => hb (List.mem_cons_of_mem _ hm)
    obtain ⟨e1, e2⟩ := append_cons_inj_of_not_mem c a b r t ha2 hb2 h.2
    exact ⟨by rw [h.1, e1], e2⟩

/-- Joining non-empty lists of separator-free items with a one-element separator is
injective. -/
theorem intercalate_inj {α : Type} (c : α) :
    ∀ (xs ys : List (List α)), xs ≠ [] → ys ≠ [] →
      (∀ x ∈ xs, c ∉ x) → (∀ y ∈ ys, c ∉ y) →
      List.intercalate [c] xs = List.intercalate [c] ys → xs = ys
  | [], _, h, _, _, _, _ => absurd rfl h
  | _ :: _, [], _, h, _, _, _ => absurd rfl h
  | [x], [y], _, _, _, _, h => by
    simpa [intercalate_singleton] using h
  | [x], y :: y2 :: ys, _, _, hx, _, h => by
    rw [intercalate_singleton, intercalate_cons_cons] at h
    have : c ∈ x := by rw [h]; simp
    exact absurd this (hx x (List.mem_cons_self _ _))
  | x :: x2 :: xs, [y], _, _, _, hy, h => by
    rw [intercalate_singleton, intercalate_cons_cons] at h
    have : c ∈ y := by rw [← h]; simp
    exact absurd this (hy y (List.mem_cons_self _ _))
  | x :: x2 :: xs, y :: y2 :: ys, _, _, hx, hy, h => by
    rw [intercalate_cons_cons, intercalate_cons_cons] at h
    simp only [List.append_assoc, List.singleton_append] at h
    obtain ⟨e1, e2⟩ := append_cons_inj_of_not_mem c x y _ _
      (hx x (List.mem_cons_self _ _)) (hy y (List.mem_cons_self _ _)) h
    have ih := intercalate_inj c (x2 :: xs) (y2 :: ys) (by simp) (by simp)
      (fun z hz => hx z (List.mem_cons_of_mem _ hz))
      (fun z hz => hy z (List.mem_cons_of_mem _ hz)) e2
    rw [e1, ih]

namespace sema

/-- The loop of `To_str` appends every identifier followed by a comma. -/
theorem To_str_range_eq {D : Decls} (gs : List (Generic D)) (kind : GoString) :
    To_str_range kind gs = kind ++ (gs.map fun g => g.Ident).flatMap (fun i => i ++ [44]) := by
  induction gs generalizing kind with
  | nil => simp [To_str_range]
  | cons g gs ih =>
    simp only [To_str_range, ih, str_comma, List.map_cons, List.flatMap_cons, List.append_assoc]

/-- Closed form of `To_str` on a struct without generics. -/
theorem To_str_nil {D : Decls} (s : Struct D) (h : s.Generics = []) :
    To_str s = some s.Ident := by
  simp [To_str, h, str_empty]

/-- Closed form of `To_str` on a struct with generics. -/
theorem To_str_cons {D : Decls} (s : Struct D) (h : s.Generics ≠ []) :
    To_str s = some (s.Ident ++ [91] ++ List.intercalate [44] (generic_idents s) ++ [93]) := by
  obtain ⟨g, gs, hg⟩ := List.exists_cons_of_ne_nil h
  have hlen : s.Generics.length > 0 := by rw [hg]; simp
  unfold To_str
  simp only [if_pos hlen, str_empty, str_lbrack, str_rbrack, List.nil_append]
  rw [To_str_range_eq, hg, List.map_cons, flatMap_sep_eq_intercalate]
  have e : s.Ident ++ [91] ++ (List.intercalate [44] (g.Ident :: gs.map fun g => g.Ident) ++ [44])
      = (s.Ident ++ [91] ++ List.intercalate [44] (g.Ident :: gs.map fun g => g.Ident)) ++ [44] := by
    simp
  rw [e, slice_to_length_pred]
  simp [generic_idents, hg]

end sema

namespace sema

/-- What the loop of `Find_method` returns: the first method, in order, whose identifier
is the one looked up. -/
theorem Find_method_range_eq_some {D : Decls} (ident : GoString) (f : Fn D) :
    ∀ (ms : List (Fn D)), Find_method_range ident ms = some f ↔
      ∃ i : Nat, ms[i]? = some f ∧ f.Ident = ident ∧
        ∀ (j : Nat) (g : Fn D), j < i → ms[j]? = some g → g.Ident ≠ ident
  | [] => by simp [Find_method_range]
  | m :: ms => by
    unfold Find_method_range
    by_cases hm : m.Ident = ident
    · rw [if_pos hm]
      constructor
      · intro h
        have hf : m = f := by simpa using h
        exact ⟨0, by simp [hf], hf ▸ hm, fun j g hj => absurd hj (Nat.not_lt_zero j)⟩
      · rintro ⟨i, hi, _, hleast⟩
        cases i with
        | zero => simpa using hi
        | succ k => exact absurd hm (hleast 0 m (Nat.succ_pos k) (by simp))
    · rw [if_neg hm, Find_method_range_eq_some ident f ms]
      constructor
      · rintro ⟨i, hi, hf, hleast⟩
        refine ⟨i + 1, by simpa using hi, hf, ?_⟩
        intro j g hj hg
        cases j with
        | zero =>
          have : m = g := by simpa using hg
          exact this ▸ hm
        | succ k => exact hleast k g (Nat.lt_of_succ_lt_succ hj) (by simpa using hg)
      · rintro ⟨i, hi, hf, hleast⟩
        cases i with
        | zero =>
          have : m = f := by simpa using hi
          exact absurd (this ▸ hf) hm
        | succ k =>
          refine ⟨k, by simpa using hi, hf, ?_⟩
          intro j g hj hg
          exact hleast (j + 1) g (Nat.succ_lt_succ hj) (by simpa using hg)

/-- The loop of `Find_method` falls through exactly when no method has the identifier. -/
theorem Find_method_range_eq_none {D : Decls} (ident : GoString) :
    ∀ (ms : List (Fn D)), Find_method_range ident ms = none ↔ ∀ f ∈ ms, f.Ident ≠ ident
  | [] => by simp [Find_method_range]
  | m :: ms => by
    unfold Find_method_range
    by_cases hm : m.Ident = ident
    · simp [hm]
    · rw [if_neg hm, Find_method_range_eq_none ident ms]
      simp [hm]

end sema

namespace sema

/-- The key `To_str` computes is the spec's canonical name of the struct for its own generics, and
never panics. -/
theorem To_str_eq_canonical_name {D : Decls} (s : Struct D) :
    To_str s = some (canonical_name s (generic_idents s)) := by
  by_cases h : s.Generics = []
  · rw [To_str_nil s h]
    simp [canonical_name, generic_idents, h]
  · rw [To_str_cons s h]
    have hne : (generic_idents s).isEmpty = false := by
      cases hg : s.Generics with
      | nil => exact absurd hg h
      | cons g gs => simp [generic_idents, hg]
    simp [canonical_name, hne, str_lbrack, str_rbrack, str_comma]

/-- Injectivity of the canonical name when no struct identifier holds a `[` and no
argument name holds a `,`. -/
theorem canonical_name_inj {D : Decls} (s1 s2 : Struct D) (a1 a2 : List GoString)
    (h1 : (91 : UInt8) ∉ s1.Ident) (h2 : (91 : UInt8) ∉ s2.Ident)
    (g1 : ∀ g ∈ a1, (44 : UInt8) ∉ g) (g2 : ∀ g ∈ a2, (44 : UInt8) ∉ g)
    (h : canonical_name s1 a1 = canonical_name s2 a2) :
    s1.Ident = s2.Ident ∧ a1 = a2 := by
  unfold canonical_name at h
  rw [str_lbrack, str_rbrack, str_comma] at h
  cases a1 with
  | nil =>
    cases a2 with
    | nil => exact ⟨by simpa using h, rfl⟩
    | cons y ys =>
      have hm : (91 : UInt8) ∈ s1.Ident := by
        simp only [List.isEmpty_nil, List.isEmpty_cons, if_true, Bool.false_eq_true,
          if_false] at h
        rw [h]; simp
      exact absurd hm h1
  | cons x xs =>
    cases a2 with
    | nil =>
      have hm : (91 : UInt8) ∈ s2.Ident := by
        simp only [List.isEmpty_nil, List.isEmpty_cons, if_true, Bool.false_eq_true,
          if_false] at h
        rw [← h]; simp
      exact absurd hm h2
    | cons y ys =>
      simp only [List.isEmpty_cons, Bool.false_eq_true, if_false, List.append_assoc,
        List.singleton_append] at h
      obtain ⟨e1, e2⟩ := append_cons_inj_of_not_mem 91 _ _ _ _ h1 h2 h
      have e3 : List.intercalate [44] (x :: xs) = List.intercalate [44] (y :: ys) :=
        List.append_cancel_right e2
      exact ⟨e1, intercalate_inj 44 _ _ (by simp) (by simp) g1 g2 e3⟩

/-- C1. `To_str` returns the identifier of a struct without generics, and otherwise the
identifier followed by `[`, the identifiers of the generics in declared order joined by
single commas, and `]`; `Pair` with generics `Int`, `Str` gives `Pair[Int,Str]` and
`Point` without generics gives `Point`. -/
theorem To_str_format :
    (∀ (D : Decls) (s : Struct D),
      (s.Generics = [] → To_str s = some s.Ident) ∧
      (s.Generics ≠ [] → To_str s =
        some (s.Ident ++ str "[" ++ List.intercalate (str ",") (generic_idents s) ++ str "]")))
    ∧ To_str (mkStruct "Pair" ["Int", "Str"] []) = some (str "Pair[Int,Str]")
    ∧ To_str (mkStruct "Point" [] []) = some (str "Point") := by
  refine ⟨fun D s => ⟨To_str_nil s, fun h => ?_⟩, by decide, by decide⟩
  rw [To_str_cons s h, str_lbrack, str_rbrack, str_comma]

/-- Instance of C1 at `Pair` with generics `Int`, `Str` and at `Point`. -/
theorem To_str_format_witness :
    To_str (mkStruct "Pair" ["Int", "Str"] []) =
      some (str "Pair" ++ str "[" ++ List.intercalate (str ",") [str "Int", str "Str"] ++ str "]")
    ∧ To_str (mkStruct "Point" [] []) = some (str "Point") :=
  ⟨(To_str_format.1 D0 (mkStruct "Pair" ["Int", "Str"] [])).2 (by simp [mkStruct]),
   (To_str_format.1 D0 (mkStruct "Point" [] [])).1 rfl⟩

/-- C2. When some method of the struct has the identifier, `Find_method` returns the
method at the least index whose identifier is the one looked up, whatever comes later. -/
theorem Find_method_first {D : Decls} (s : Struct D) (ident : GoString)
    (h : ∃ f ∈ s.Methods, f.Ident = ident) :
    ∃ (i : Nat) (f : Fn D), s.Methods[i]? = some f ∧ f.Ident = ident ∧
      (∀ (j : Nat) (g : Fn D), j < i → s.Methods[j]? = some g → g.Ident ≠ ident) ∧
      Find_method s ident = some f := by
  cases hr : Find_method_range ident s.Methods with
  | none =>
    obtain ⟨f, hf, hi⟩ := h
    exact absurd hi ((Find_method_range_eq_none ident s.Methods).1 hr f hf)
  | some f =>
    obtain ⟨i, hi, hf, hleast⟩ := (Find_method_range_eq_some ident f s.Methods).1 hr
    exact ⟨i, f, hi, hf, hleast, hr⟩

/-- Instance of C2: on methods `a`, `b`, `a` the lookup of `a` returns the method at
index 0 (numbered 0), not the one at index 2 (numbered 2). -/
theorem Find_method_first_witness :
    (∃ f ∈ (mkStruct "S" [] [("a", 0), ("b", 1), ("a", 2)]).Methods, f.Ident = str "a") ∧
    (∃ (i : Nat) (f : Fn D0),
      (mkStruct "S" [] [("a", 0), ("b", 1), ("a", 2)]).Methods[i]? = some f ∧
      f.Ident = str "a" ∧
      (∀ (j : Nat) (g : Fn D0), j < i →
        (mkStruct "S" [] [("a", 0), ("b", 1), ("a", 2)]).Methods[j]? = some g →
        g.Ident ≠ str "a") ∧
      Find_method (mkStruct "S" [] [("a", 0), ("b", 1), ("a", 2)]) (str "a") = some f) ∧
    Find_method (mkStruct "S" [] [("a", 0), ("b", 1), ("a", 2)]) (str "a")
      = some ⟨str "a", (0 : Nat)⟩ :=
  have h : ∃ f ∈ (mkStruct "S" [] [("a", 0), ("b", 1), ("a", 2)]).Methods, f.Ident = str "a" :=
    ⟨⟨str "a", (0 : Nat)⟩, by simp [mkStruct], rfl⟩
  ⟨h, Find_method_first _ _ h, rfl⟩

/-- C3. `Find_method` is total; it returns none exactly when no method of the struct has
the identifier, and a method otherwise. It returns none on a struct without methods, and
for `c` on methods `a`, `b`, `a`. -/
theorem Find_method_none_iff :
    (∀ (D : Decls) (s : Struct D) (ident : GoString),
      (Find_method s ident = none ↔ ∀ f ∈ s.Methods, f.Ident ≠ ident) ∧
      ((∃ f ∈ s.Methods, f.Ident = ident) ↔ ∃ f, Find_method s ident = some f) ∧
      (s.Methods = [] → Find_method s ident = none))
    ∧ Find_method (mkStruct "S" [] [("a", 0), ("b", 1), ("a", 2)]) (str "c") = none := by
  refine ⟨fun D s ident => ⟨Find_method_range_eq_none ident s.Methods, ?_, ?_⟩, rfl⟩
  · constructor
    · rintro ⟨f, hf, hi⟩
      cases hr : Find_method s ident with
      | none => exact absurd hi ((Find_method_range_eq_none ident s.Methods).1 hr f hf)
      | some g => exact ⟨g, rfl⟩
    · rintro ⟨f, hf⟩
      obtain ⟨i, hi, hid, _⟩ := (Find_method_range_eq_some ident f s.Methods).1 hf
      exact ⟨f, List.getElem?_mem hi, hid⟩
  · intro h
    simp [Find_method, h, Find_method_range]

/-- Instance of C3: no method of `a`, `b`, `a` is named `c`, and the lookup of `c`
returns none. -/
theorem Find_method_none_iff_witness :
    (∀ f ∈ (mkStruct "S" [] [("a", 0), ("b", 1), ("a", 2)]).Methods, f.Ident ≠ str "c") ∧
    Find_method (mkStruct "S" [] [("a", 0), ("b", 1), ("a", 2)]) (str "c") = none :=
  have h : ∀ f ∈ (mkStruct "S" [] [("a", 0), ("b", 1), ("a", 2)]).Methods, f.Ident ≠ str "c" := by
    intro f hf
    simp only [mkStruct, List.map_cons, List.map_nil, List.mem_cons, List.mem_singleton,
      List.mem_nil_iff, or_false] at hf
    rcases hf with rfl | rfl | rfl <;> decide
  ⟨h, ((Find_method_none_iff.1 D0 _ (str "c")).1).2 h⟩

end sema

namespace sema

/-- C4, as stated, fails: `Pair` with the one generic `Int,Str` and `Pair` with the two
generics `Int`, `Str` have the same key, and so have `Box[T]` without generics and `Box`
with the generic `T`. -/
theorem To_str_not_injective :
    (To_str (mkStruct "Pair" ["Int,Str"] []) = To_str (mkStruct "Pair" ["Int", "Str"] []) ∧
      generic_idents (mkStruct "Pair" ["Int,Str"] [])
        ≠ generic_idents (mkStruct "Pair" ["Int", "Str"] [])) ∧
    (To_str (mkStruct "Box[T]" [] []) = To_str (mkStruct "Box" ["T"] []) ∧
      (mkStruct "Box[T]" [] []).Ident ≠ (mkStruct "Box" ["T"] []).Ident) ∧
    ¬ ∀ (s1 s2 : Struct D0), To_str s1 = To_str s2 →
        s1.Ident = s2.Ident ∧ generic_idents s1 = generic_idents s2 := by
  have h1 : generic_idents (mkStruct "Pair" ["Int,Str"] [])
      ≠ generic_idents (mkStruct "Pair" ["Int", "Str"] []) := by decide
  have h2 : (mkStruct "Box[T]" [] []).Ident ≠ (mkStruct "Box" ["T"] []).Ident := by decide
  exact ⟨⟨rfl, h1⟩, ⟨rfl, h2⟩, fun h =>
    h1 (h (mkStruct "Pair" ["Int,Str"] []) (mkStruct "Pair" ["Int", "Str"] []) rfl).2⟩

/-- C4, amended. For two structs whose identifiers hold no `[` and whose generic
identifiers hold no `,`, equal keys give equal identifiers and equal ordered lists of
generic identifiers. -/
theorem To_str_injective_of_no_delimiters {D : Decls} (s1 s2 : Struct D)
    (h1 : (91 : UInt8) ∉ s1.Ident) (h2 : (91 : UInt8) ∉ s2.Ident)
    (g1 : ∀ g ∈ generic_idents s1, (44 : UInt8) ∉ g)
    (g2 : ∀ g ∈ generic_idents s2, (44 : UInt8) ∉ g)
    (h : To_str s1 = To_str s2) :
    s1.Ident = s2.Ident ∧ generic_idents s1 = generic_idents s2 := by
  rw [To_str_eq_canonical_name, To_str_eq_canonical_name] at h
  exact canonical_name_inj s1 s2 _ _ h1 h2 g1 g2 (Option.some.inj h)

/-- Instance of the amended C4 at `Pair` with generics `Int`, `Str`, declared once with
and once without a method. -/
theorem To_str_injective_of_no_delimiters_witness :
    To_str (mkStruct "Pair" ["Int", "Str"] []) = To_str (mkStruct "Pair" ["Int", "Str"] [("m", 1)])
    ∧ (mkStruct "Pair" ["Int", "Str"] []).Ident
        = (mkStruct "Pair" ["Int", "Str"] [("m", 1)]).Ident
    ∧ generic_idents (mkStruct "Pair" ["Int", "Str"] [])
        = generic_idents (mkStruct "Pair" ["Int", "Str"] [("m", 1)]) :=
  ⟨rfl, To_str_injective_of_no_delimiters
    (mkStruct "Pair" ["Int", "Str"] []) (mkStruct "Pair" ["Int", "Str"] [("m", 1)])
    (by decide) (by decide) (by decide) (by decide) rfl⟩

/-- C5. `Find_method` looks up by identifier only: a method it returns is one of the
struct's methods and has exactly the identifier looked up; and on two structs whose
method lists carry the same identifiers position by position it returns none in both, or
in both the method at one and the same index, the least one carrying the identifier. -/
theorem Find_method_ident_only {D1 D2 : Decls} (s1 : Struct D1) (s2 : Struct D2)
    (ident : GoString) :
    (∀ f, Find_method s1 ident = some f → f ∈ s1.Methods ∧ f.Ident = ident) ∧
    (method_idents s1 = method_idents s2 →
      (Find_method s1 ident = none ∧ Find_method s2 ident = none) ∨
      ∃ (i : Nat) (f1 : Fn D1) (f2 : Fn D2),
        s1.Methods[i]? = some f1 ∧ s2.Methods[i]? = some f2 ∧
        Find_method s1 ident = some f1 ∧ Find_method s2 ident = some f2 ∧
        ∀ j : Nat, j < i → (method_idents s1)[j]? ≠ some ident) := by
  constructor
  · intro f hf
    obtain ⟨i, hi, hid, _⟩ := (Find_method_range_eq_some ident f s1.Methods).1 hf
    exact ⟨List.getElem?_mem hi, hid⟩
  · intro hm
    cases hr : Find_method s1 ident with
    | none =>
      left
      refine ⟨rfl, (Find_method_range_eq_none ident s2.Methods).2 ?_⟩
      intro f hf hid
      have hmem : ident ∈ method_idents s2 := List.mem_map.2 ⟨f, hf, hid⟩
      rw [← hm] at hmem
      obtain ⟨g, hg, hgi⟩ := List.mem_map.1 hmem
      exact (Find_method_range_eq_none ident s1.Methods).1 hr g hg hgi
    | some f1 =>
      right
      obtain ⟨i, hi, hid, hleast⟩ := (Find_method_range_eq_some ident f1 s1.Methods).1 hr
      have key : ∀ k : Nat, (s1.Methods[k]?).map (fun f => f.Ident)
          = (s2.Methods[k]?).map (fun f => f.Ident) := by
        intro k
        have := congrArg (fun l => l[k]?) hm
        simpa [method_idents, List.getElem?_map] using this
      have hi2 : (s2.Methods[i]?).map (fun f => f.Ident) = some ident := by
        rw [← key i, hi]; simp [hid]
      obtain ⟨f2, hf2, hid2⟩ := Option.map_eq_some'.1 hi2
      refine ⟨i, f1, f2, hi, hf2, rfl, ?_, ?_⟩
      · refine (Find_method_range_eq_some ident f2 s2.Methods).2 ⟨i, hf2, hid2, ?_⟩
        intro j g hj hg hgi
        have hj1 : (s1.Methods[j]?).map (fun f => f.Ident) = some ident := by
          rw [key j, hg]; simp [hgi]
        obtain ⟨g1, hg1, hg1i⟩ := Option.map_eq_some'.1 hj1
        exact hleast j g1 hj hg1 hg1i
      · intro j hj hji
        have hj1 : (s1.Methods[j]?).map (fun f => f.Ident) = some ident := by
          simpa [method_idents, List.getElem?_map] using hji
        obtain ⟨g1, hg1, hg1i⟩ := Option.map_eq_some'.1 hj1
        exact hleast j g1 hj hg1 hg1i

/-- Instance of C5: two structs with method identifiers `a`, `b`, `a` and different
method payloads; looking up `a` gives the method at index 0 in both, and looking up `b`
the method at index 1 in both. -/
theorem Find_method_ident_only_witness :
    method_idents (mkStruct "S" [] [("a", 0), ("b", 1), ("a", 2)])
      = method_idents (mkStruct "T" [] [("a", 10), ("b", 11), ("a", 12)]) ∧
    Find_method (mkStruct "S" [] [("a", 0), ("b", 1), ("a", 2)]) (str "a")
      = some ⟨str "a", (0 : Nat)⟩ ∧
    Find_method (mkStruct "T" [] [("a", 10), ("b", 11), ("a", 12)]) (str "a")
      = some ⟨str "a", (10 : Nat)⟩ ∧
    ((⟨str "a", (0 : Nat)⟩ : Fn D0) ∈ (mkStruct "S" [] [("a", 0), ("b", 1), ("a", 2)]).Methods ∧
      (⟨str "a", (0 : Nat)⟩ : Fn D0).Ident = str "a") ∧
    ((Find_method (mkStruct "S" [] [("a", 0), ("b", 1), ("a", 2)]) (str "b") = none ∧
        Find_method (mkStruct "T" [] [("a", 10), ("b", 11), ("a", 12)]) (str "b") = none) ∨
      ∃ (i : Nat) (f1 : Fn D0) (f2 : Fn D0),
        (mkStruct "S" [] [("a", 0), ("b", 1), ("a", 2)]).Methods[i]? = some f1 ∧
        (mkStruct "T" [] [("a", 10), ("b", 11), ("a", 12)]).Methods[i]? = some f2 ∧
        Find_method (mkStruct "S" [] [("a", 0), ("b", 1), ("a", 2)]) (str "b") = some f1 ∧
        Find_method (mkStruct "T" [] [("a", 10), ("b", 11), ("a", 12)]) (str "b") = some f2 ∧
        ∀ j : Nat, j < i →
          (method_idents (mkStruct "S" [] [("a", 0), ("b", 1), ("a", 2)]))[j]?
            ≠ some (str "b")) :=
  ⟨rfl, rfl, rfl,
   (Find_method_ident_only (mkStruct "S" [] [("a", 0), ("b", 1), ("a", 2)])
      (mkStruct "T" [] [("a", 10), ("b", 11), ("a", 12)]) (str "a")).1 _ rfl,
   (Find_method_ident_only (mkStruct "S" [] [("a", 0), ("b", 1), ("a", 2)])
      (mkStruct "T" [] [("a", 10), ("b", 11), ("a", 12)]) (str "b")).2 rfl⟩

/-- C6. `To_str` is a function of the struct identifier and the ordered generic
identifiers alone: two structs that agree on these have the same key, whatever their
other fields (and the payloads of their generics) are. -/
theorem To_str_depends_on_idents_only {D1 D2 : Decls} (s1 : Struct D1) (s2 : Struct D2)
    (hi : s1.Ident = s2.Ident) (hg : generic_idents s1 = generic_idents s2) :
    To_str s1 = To_str s2 := by
  rw [To_str_eq_canonical_name, To_str_eq_canonical_name, hg]
  simp [canonical_name, hi]

/-- Instance of C6: `Pair` with generics `Int`, `Str`, once bare and once public,
native-linked, documented and with a method. -/
theorem To_str_depends_on_idents_only_witness :
    To_str (mkStruct "Pair" ["Int", "Str"] []) =
      To_str { mkStruct "Pair" ["Int", "Str"] [("get", 4)] with
        Public := true, Cpp_linked := true, Doc := str "A pair.", Directives := [()],
        Implements := [()] } :=
  To_str_depends_on_idents_only (mkStruct "Pair" ["Int", "Str"] [])
    { mkStruct "Pair" ["Int", "Str"] [("get", 4)] with
        Public := true, Cpp_linked := true, Doc := str "A pair.", Directives := [()],
        Implements := [()] } rfl rfl

end sema

namespace parser

/-- C7. When the lexer reports a non-empty error list, `ParseFile` stops there: the
info's `Errors` is the lexer's list, `X_CXX` is the empty string, `Parser` (and `File`)
are as before, and the result is the same whatever `NewParser`, `Parse` and `Cxx` are,
so no parser is constructed or run. -/
theorem ParseFile_lexer_errors {X : Decls} (c : Collab X) (info : ParseFileInfo X)
    (errors : List GoString) (hlex : (c.Tokenize info.File).2 = some errors)
    (hne : errors ≠ []) :
    (ParseFile c info).Errors = some errors ∧
    (ParseFile c info).X_CXX = str "" ∧
    (ParseFile c info).Parser = info.Parser ∧
    (ParseFile c info).File = info.File ∧
    ∀ c2 : Collab X, c2.Tokenize = c.Tokenize → ParseFile c2 info = ParseFile c info := by
  have run : ∀ c2 : Collab X, c2.Tokenize = c.Tokenize →
      ParseFile c2 info = Done { info with X_CXX := str "", Errors := some errors } := by
    intro c2 h2
    unfold ParseFile
    simp only [h2, hlex]
  rw [run c rfl]
  refine ⟨rfl, rfl, rfl, rfl, fun c2 h2 => run c2 h2⟩

/-- Instance of C7: the lexer reports `unclosed parenthesis` on an info left over from an
earlier run; the old output is cleared and the old parser is still there. -/
theorem ParseFile_lexer_errors_witness :
    (ParseFile (failing "unclosed parenthesis") info0).Errors
      = some [str "unclosed parenthesis"] ∧
    (ParseFile (failing "unclosed parenthesis") info0).X_CXX = str "" ∧
    (ParseFile (failing "unclosed parenthesis") info0).Parser = some [7] ∧
    (ParseFile (failing "unclosed parenthesis") info0).File = str "fn main(" ∧
    ∀ c2 : Collab X0, c2.Tokenize = (failing "unclosed parenthesis").Tokenize →
      ParseFile c2 info0 = ParseFile (failing "unclosed parenthesis") info0 :=
  ParseFile_lexer_errors (failing "unclosed parenthesis") info0
    [str "unclosed parenthesis"] rfl (List.cons_ne_nil _ _)

end parser

namespace sema

/-- C9. For a struct whose generic identifiers are the keys of argument structs, one per
argument and in order, `To_str` gives the struct identifier, `[`, the keys of the
arguments joined by single commas, and `]`: nested arguments give nested brackets. -/
theorem To_str_nested {D1 D2 : Decls} (outer : Struct D1) (args : List (Struct D2))
    (keys : List GoString) (hargs : args ≠ [])
    (hkeys : args.map To_str = keys.map some)
    (hgen : generic_idents outer = keys) :
    To_str outer = some (outer.Ident ++ str "[" ++ List.intercalate (str ",") keys ++ str "]") := by
  have hk : keys ≠ [] := by
    intro h0
    rw [h0] at hkeys
    exact hargs (List.map_eq_nil_iff.1 hkeys)
  have hg : outer.Generics ≠ [] := by
    intro h0
    apply hk
    rw [← hgen]
    simp [generic_idents, h0]
  rw [To_str_cons outer hg, hgen, str_lbrack, str_rbrack, str_comma]

/-- Instance of C9: `Box` whose one generic is named by the key of `Pair` with generics
`Int`, `Str` gives `Box[Pair[Int,Str]]`. -/
theorem To_str_nested_witness :
    To_str (mkStruct "Box" ["Pair[Int,Str]"] []) = some (str "Box[Pair[Int,Str]]") :=
  (To_str_nested (mkStruct "Box" ["Pair[Int,Str]"] []) [mkStruct "Pair" ["Int", "Str"] []]
    [str "Pair[Int,Str]"] (List.cons_ne_nil _ _) rfl rfl).trans rfl

/-- C10. For two structs whose identifier and generic identifiers hold none of `[`, `]`
and `,`, equal keys give equal identifiers and equal ordered lists of generic
identifiers, also when one of the two has no generics. -/
theorem To_str_injective_wellformed {D : Decls} (s1 s2 : Struct D)
    (w1 : delimiter_free s1.Ident ∧ ∀ g ∈ generic_idents s1, delimiter_free g)
    (w2 : delimiter_free s2.Ident ∧ ∀ g ∈ generic_idents s2, delimiter_free g)
    (h : To_str s1 = To_str s2) :
    s1.Ident = s2.Ident ∧ generic_idents s1 = generic_idents s2 := by
  rw [To_str_eq_canonical_name, To_str_eq_canonical_name] at h
  exact canonical_name_inj s1 s2 _ _ w1.1.1 w2.1.1 (fun g hg => (w1.2 g hg).2.2)
    (fun g hg => (w2.2 g hg).2.2) (Option.some.inj h)

/-- Instance of C10: `Pair` with generics `Int`, `Str`, declared once with and once
without a method. -/
theorem To_str_injective_wellformed_witness :
    (delimiter_free (mkStruct "Pair" ["Int", "Str"] []).Ident ∧
      ∀ g ∈ generic_idents (mkStruct "Pair" ["Int", "Str"] []), delimiter_free g) ∧
    To_str (mkStruct "Pair" ["Int", "Str"] [])
      = To_str (mkStruct "Pair" ["Int", "Str"] [("len", 1)]) ∧
    (mkStruct "Pair" ["Int", "Str"] []).Ident
      = (mkStruct "Pair" ["Int", "Str"] [("len", 1)]).Ident ∧
    generic_idents (mkStruct "Pair" ["Int", "Str"] [])
      = generic_idents (mkStruct "Pair" ["Int", "Str"] [("len", 1)]) :=
  have w : delimiter_free (str "Pair") ∧
      ∀ g ∈ generic_idents (mkStruct "Pair" ["Int", "Str"] []), delimiter_free g := by decide
  ⟨w, rfl, To_str_injective_wellformed (mkStruct "Pair" ["Int", "Str"] [])
    (mkStruct "Pair" ["Int", "Str"] [("len", 1)]) w w rfl⟩

end sema

namespace sema

/-- A call of `instantiate` with the right number of arguments whose key is cached
returns the cached reference and leaves the engine as it is. -/
theorem instantiate_hit {D : Decls} (R : Resolver D) (e : Engine D) (s : Struct D)
    (args : List D.TypeKind) (ref : Nat) (harity : args.length = s.Generics.length)
    (hc : cache_lookup (canonical_name s (args.map R.kind_str)) e.cache = some ref) :
    instantiate R e s args = (e, Except.ok ref) := by
  unfold instantiate
  rw [if_neg (not_not.2 harity)]
  simp only [hc]

/-- A call of `instantiate` with the right number of arguments whose key is not cached
appends one instance to the store, caches its reference under the key and returns it. -/
theorem instantiate_miss {D : Decls} (R : Resolver D) (e : Engine D) (s : Struct D)
    (args : List D.TypeKind) (harity : args.length = s.Generics.length)
    (hc : cache_lookup (canonical_name s (args.map R.kind_str)) e.cache = none) :
    ∃ ins : StructIns D, instantiate R e s args =
      ({ store := e.store ++ [ins],
         cache := (canonical_name s (args.map R.kind_str), e.store.length) :: e.cache },
       Except.ok e.store.length) := by
  unfold instantiate
  rw [if_neg (not_not.2 harity)]
  simp only [hc]
  exact ⟨_, rfl⟩

/-- A call of `instantiate` with the wrong number of arguments leaves the engine as it
is. -/
theorem instantiate_arity {D : Decls} (R : Resolver D) (e : Engine D) (s : Struct D)
    (args : List D.TypeKind) (harity : args.length ≠ s.Generics.length) :
    (instantiate R e s args).1 = e := by
  unfold instantiate
  rw [if_pos harity]

/-- A call of `instantiate` with the right number of arguments returns a reference, which
the cache holds for the key afterwards and at which the store holds an instance, provided
the cache held no dangling reference before. -/
theorem instantiate_returns {D : Decls} (R : Resolver D) (e : Engine D) (s : Struct D)
    (args : List D.TypeKind) (harity : args.length = s.Generics.length)
    (hwf : ∀ k r, cache_lookup k e.cache = some r → r < e.store.length) :
    ∃ ref, (instantiate R e s args).2 = Except.ok ref ∧
      cache_lookup (canonical_name s (args.map R.kind_str)) (instantiate R e s args).1.cache
        = some ref ∧
      ref < (instantiate R e s args).1.store.length := by
  cases hc : cache_lookup (canonical_name s (args.map R.kind_str)) e.cache with
  | some ref =>
    rw [instantiate_hit R e s args ref harity hc]
    exact ⟨ref, rfl, hc, hwf _ _ hc⟩
  | none =>
    obtain ⟨ins, hi⟩ := instantiate_miss R e s args harity hc
    rw [hi]
    exact ⟨e.store.length, rfl, by simp [cache_lookup], by simp⟩

/-- A call of `instantiate` keeps every cached reference and only appends to the store. -/
theorem instantiate_keeps {D : Decls} (R : Resolver D) (e : Engine D) (s : Struct D)
    (args : List D.TypeKind) :
    (∀ k r, cache_lookup k e.cache = some r →
      cache_lookup k (instantiate R e s args).1.cache = some r) ∧
    (∃ l, (instantiate R e s args).1.store = e.store ++ l) := by
  by_cases ha : args.length = s.Generics.length
  · cases hc : cache_lookup (canonical_name s (args.map R.kind_str)) e.cache with
    | some ref =>
      rw [instantiate_hit R e s args ref ha hc]
      exact ⟨fun _ _ h => h, [], by simp⟩
    | none =>
      obtain ⟨ins, hi⟩ := instantiate_miss R e s args ha hc
      rw [hi]
      refine ⟨fun k r h => ?_, [ins], rfl⟩
      have hk : canonical_name s (args.map R.kind_str) ≠ k := by
        intro hk
        rw [hk, h] at hc
        cases hc
      simp only [cache_lookup, if_neg hk]
      exact h
  · rw [instantiate_arity R e s args ha]
    exact ⟨fun _ _ h => h, [], by simp⟩

/-- A sequence of `instantiate` calls keeps every cached reference and only appends to
the store. -/
theorem instantiate_all_keeps {D : Decls} (R : Resolver D) :
    ∀ (reqs : List (Struct D × List D.TypeKind)) (e : Engine D),
      (∀ k r, cache_lookup k e.cache = some r →
        cache_lookup k (instantiate_all R e reqs).cache = some r) ∧
      (∃ l, (instantiate_all R e reqs).store = e.store ++ l)
  | [], e => ⟨fun _ _ h => h, [], by simp [instantiate_all]⟩
  | (s, args) :: rest, e => by
    obtain ⟨h1, l1, hl1⟩ := instantiate_keeps R e s args
    obtain ⟨h2, l2, hl2⟩ := instantiate_all_keeps R rest (instantiate R e s args).1
    refine ⟨fun k r h => h2 k r (h1 k r h), l1 ++ l2, ?_⟩
    simp only [instantiate_all]
    rw [hl2, hl1, List.append_assoc]

/-- A call of `instantiate` leaves no reference of the cache dangling if none was. -/
theorem instantiate_no_dangling {D : Decls} (R : Resolver D) (e : Engine D) (s : Struct D)
    (args : List D.TypeKind)
    (hwf : ∀ k r, cache_lookup k e.cache = some r → r < e.store.length) :
    ∀ k r, cache_lookup k (instantiate R e s args).1.cache = some r →
      r < (instantiate R e s args).1.store.length := by
  by_cases ha : args.length = s.Generics.length
  · cases hc : cache_lookup (canonical_name s (args.map R.kind_str)) e.cache with
    | some ref =>
      rw [instantiate_hit R e s args ref ha hc]
      exact hwf
    | none =>
      obtain ⟨ins, hi⟩ := instantiate_miss R e s args ha hc
      rw [hi]
      intro k r h
      simp only [cache_lookup] at h
      simp only [List.length_append, List.length_singleton]
      by_cases hk : canonical_name s (args.map R.kind_str) = k
      · rw [if_pos hk] at h
        cases h
        exact Nat.lt_succ_self _
      · rw [if_neg hk] at h
        exact Nat.lt_succ_of_lt (hwf k r h)
  · rw [instantiate_arity R e s args ha]
    exact hwf

/-- An engine that has served requests from the empty state has no dangling reference in
its cache. -/
theorem instantiate_all_no_dangling {D : Decls} (R : Resolver D) :
    ∀ (reqs : List (Struct D × List D.TypeKind)) (e : Engine D),
      (∀ k r, cache_lookup k e.cache = some r → r < e.store.length) →
      ∀ k r, cache_lookup k (instantiate_all R e reqs).cache = some r →
        r < (instantiate_all R e reqs).store.length
  | [], _, hwf => hwf
  | (s, args) :: rest, e, hwf =>
    instantiate_all_no_dangling R rest (instantiate R e s args).1
      (instantiate_no_dangling R e s args hwf)

/-- C8. Canonical identity of instantiation, on the engine modelled from §4.3. In an
engine that has served any requests since the start of the compilation, after a call
`instantiate(S, args)` with the right number of arguments, and after any further requests
served in between, a second call with equal ordered arguments returns the same reference
as the first, leaves the engine as it is (it builds no copy), and the instance stored
under that reference is the one the first call returned. -/
theorem instantiate_canonical_identity {D : Decls} (R : Resolver D) (e : Engine D)
    (s : Struct D) (args1 args2 : List D.TypeKind)
    (before between : List (Struct D × List D.TypeKind))
    (hbefore : e = instantiate_all R (Engine.empty D) before)
    (harity : args1.length = s.Generics.length) (hargs : args1 = args2) :
    ∃ (ref : Nat) (ins : StructIns D),
      (instantiate R e s args1).2 = Except.ok ref ∧
      (instantiate R e s args1).1.store[ref]? = some ins ∧
      instantiate R (instantiate_all R (instantiate R e s args1).1 between) s args2
        = (instantiate_all R (instantiate R e s args1).1 between, Except.ok ref) ∧
      (instantiate_all R (instantiate R e s args1).1 between).store[ref]? = some ins := by
  subst hargs
  have hwf : ∀ k r, cache_lookup k e.cache = some r → r < e.store.length := by
    rw [hbefore]
    refine instantiate_all_no_dangling R before (Engine.empty D) ?_
    intro k r h
    simp [Engine.empty, cache_lookup] at h
  obtain ⟨ref, hr, hc, hlt⟩ := instantiate_returns R e s args1 harity hwf
  obtain ⟨hkeep, l, hl⟩ := instantiate_all_keeps R between (instantiate R e s args1).1
  refine ⟨ref, (instantiate R e s args1).1.store[ref], hr, ?_, ?_, ?_⟩
  · exact List.getElem?_eq_getElem hlt
  · exact instantiate_hit R _ s args1 ref harity (hkeep _ _ hc)
  · rw [hl, List.getElem?_append_left hlt]
    exact List.getElem?_eq_getElem hlt

/-- Instance of C8: from the start of a compilation, `Pair` is instantiated with `Int`,
`Str`, then with `Str`, `Int`, then again with `Int`, `Str`; the first and the third call
return reference 0, and two instances are live. -/
theorem instantiate_canonical_identity_witness :
    (instantiate R0 (Engine.empty D0) (mkStruct "Pair" ["T", "U"] [])
      [str "Int", str "Str"]).2 = Except.ok 0 ∧
    (instantiate R0 (instantiate_all R0
        (instantiate R0 (Engine.empty D0) (mkStruct "Pair" ["T", "U"] [])
          [str "Int", str "Str"]).1
        [(mkStruct "Pair" ["T", "U"] [], [str "Str", str "Int"])])
      (mkStruct "Pair" ["T", "U"] []) [str "Int", str "Str"]).2 = Except.ok 0 ∧
    (instantiate_all R0
        (instantiate R0 (Engine.empty D0) (mkStruct "Pair" ["T", "U"] [])
          [str "Int", str "Str"]).1
        [(mkStruct "Pair" ["T", "U"] [], [str "Str", str "Int"])]).store.length = 2 ∧
    ∃ (ref : Nat) (ins : StructIns D0),
      (instantiate R0 (Engine.empty D0) (mkStruct "Pair" ["T", "U"] [])
        [str "Int", str "Str"]).2 = Except.ok ref ∧
      (instantiate R0 (Engine.empty D0) (mkStruct "Pair" ["T", "U"] [])
        [str "Int", str "Str"]).1.store[ref]? = some ins ∧
      instantiate R0 (instantiate_all R0
          (instantiate R0 (Engine.empty D0) (mkStruct "Pair" ["T", "U"] [])
            [str "Int", str "Str"]).1
          [(mkStruct "Pair" ["T", "U"] [], [str "Str", str "Int"])])
          (mkStruct "Pair" ["T", "U"] []) [str "Int", str "Str"]
        = (instantiate_all R0
          (instantiate R0 (Engine.empty D0) (mkStruct "Pair" ["T", "U"] [])
            [str "Int", str "Str"]).1
          [(mkStruct "Pair" ["T", "U"] [], [str "Str", str "Int"])], Except.ok ref) ∧
      (instantiate_all R0
          (instantiate R0 (Engine.empty D0) (mkStruct "Pair" ["T", "U"] [])
            [str "Int", str "Str"]).1
          [(mkStruct "Pair" ["T", "U"] [], [str "Str", str "Int"])]).store[ref]? = some ins :=
  ⟨rfl, rfl, rfl,
   instantiate_canonical_identity R0 (Engine.empty D0) (mkStruct "Pair" ["T", "U"] [])
    [str "Int", str "Str"] [str "Int", str "Str"] []
    [(mkStruct "Pair" ["T", "U"] [], [str "Str", str "Int"])] rfl rfl rfl⟩

end sema

namespace sema

/-- The loop of `To_str` on a non-empty list of generics: the identifiers before the last
one, each followed by a comma, then the last identifier, then one comma. -/
theorem To_str_range_last {D : Decls} (gs : List (Generic D)) (last : Generic D)
    (kind : GoString) :
    To_str_range kind (gs ++ [last]) =
      (kind ++ gs.flatMap (fun g => g.Ident ++ str ",") ++ last.Ident) ++ [44] := by
  rw [To_str_range_eq, str_comma]
  simp [List.flatMap_map, List.flatMap_append]

/-- C11. In `To_str` on a struct with at least one generic, the string before trimming is
non-empty and ends with the comma appended after the last generic; the slice
`kind[:len(kind)-1]` is in range and removes exactly that comma; and the result is the
struct identifier, `[`, every generic identifier before the last one followed by a comma,
the last generic's identifier in full, and `]`. No condition on the identifiers is
needed. -/
theorem To_str_trim_removes_comma {D : Decls} (s : Struct D) (h : s.Generics ≠ []) :
    ∃ (body : GoString) (last : Generic D),
      s.Generics.getLast? = some last ∧
      body = s.Ident ++ str "[" ++
        s.Generics.dropLast.flatMap (fun g => g.Ident ++ str ",") ++ last.Ident ∧
      To_str_range (str "" ++ s.Ident ++ str "[") s.Generics = body ++ str "," ∧
      To_str_range (str "" ++ s.Ident ++ str "[") s.Generics ≠ [] ∧
      slice_to (To_str_range (str "" ++ s.Ident ++ str "[") s.Generics)
        (((To_str_range (str "" ++ s.Ident ++ str "[") s.Generics).length : Int) - 1)
        = some body ∧
      To_str s = some (body ++ str "]") := by
  have hsplit : s.Generics.dropLast ++ [s.Generics.getLast h] = s.Generics :=
    List.dropLast_append_getLast h
  have hpre : To_str_range (str "" ++ s.Ident ++ str "[") s.Generics
      = (s.Ident ++ str "[" ++
          s.Generics.dropLast.flatMap (fun g => g.Ident ++ str ",")
          ++ (s.Generics.getLast h).Ident) ++ [44] := by
    conv_lhs => rw [← hsplit]
    rw [To_str_range_last, str_empty, List.nil_append]
  have hlen : s.Generics.length > 0 := List.length_pos.2 h
  refine ⟨_, s.Generics.getLast h, List.getLast?_eq_getLast _ h, rfl, ?_, ?_, ?_, ?_⟩
  · rw [hpre, str_comma]
  · rw [hpre]
    exact List.append_ne_nil_of_right_ne_nil _ (List.cons_ne_nil _ _)
  · rw [hpre]
    exact slice_to_length_pred _ _
  · unfold To_str
    simp only [if_pos hlen]
    rw [hpre, slice_to_length_pred]
    rfl

/-- Instance of C11: `Vec` with a generic whose identifier is empty and a last generic
whose identifier ends in the two-byte character `é` gives `Vec[,é]`, and with the two
generics swapped `Vec[é,]`. -/
theorem To_str_trim_removes_comma_witness :
    To_str (mkStruct "Vec" ["", "é"] []) = some (str "Vec[,é]") ∧
    To_str (mkStruct "Vec" ["é", ""] []) = some (str "Vec[é,]") ∧
    str "é" = [195, 169] ∧
    ∃ (body : GoString) (last : Generic D0),
      (mkStruct "Vec" ["", "é"] []).Generics.getLast? = some last ∧
      body = (mkStruct "Vec" ["", "é"] []).Ident ++ str "[" ++
        (mkStruct "Vec" ["", "é"] []).Generics.dropLast.flatMap
          (fun g => g.Ident ++ str ",") ++ last.Ident ∧
      To_str_range (str "" ++ (mkStruct "Vec" ["", "é"] []).Ident ++ str "[")
        (mkStruct "Vec" ["", "é"] []).Generics = body ++ str "," ∧
      To_str_range (str "" ++ (mkStruct "Vec" ["", "é"] []).Ident ++ str "[")
        (mkStruct "Vec" ["", "é"] []).Generics ≠ [] ∧
      slice_to (To_str_range (str "" ++ (mkStruct "Vec" ["", "é"] []).Ident ++ str "[")
          (mkStruct "Vec" ["", "é"] []).Generics)
        (((To_str_range (str "" ++ (mkStruct "Vec" ["", "é"] []).Ident ++ str "[")
          (mkStruct "Vec" ["", "é"] []).Generics).length : Int) - 1)
        = some body ∧
      To_str (mkStruct "Vec" ["", "é"] []) = some (body ++ str "]") :=
  ⟨by decide, by decide, by decide,
   To_str_trim_removes_comma (mkStruct "Vec" ["", "é"] []) (by simp [mkStruct])⟩

end sema

namespace parser

end parser
